import Mathlib

/-!
Verification of the inventory management module (`inventory_system.py`).

The module keeps a global dictionary `stock_data` mapping item names to
integer quantities, with operations `add_item`, `remove_item`, `get_qty`,
`check_low_items`, and persistence via `load_data` / `save_data`.

The embedding below passes the store state explicitly.  A Python dict is
modelled as an insertion-ordered association list (`dictGet` finds the
first binding, `dictSet` updates in place or appends, `dictDel` removes
the binding), which matches CPython dict semantics for the distinct-key
dictionaries this module builds.  The dynamically typed `qty` argument of
`add_item` is modelled by a small universe `PyVal` of Python values, so
that the `isinstance(qty, int)` check is expressible.  File I/O is
modelled by a file-system map from paths to file contents, where a
content is either a missing file, an unparsable file, or a JSON document
holding a store.  Logging calls are modelled by the `RemoveOutcome`
result of `remove_item` (which branch ran) and by the log list that
`add_item` appends to.
-/

namespace Inventory

/-- A Python runtime value, as far as `add_item`'s `qty` parameter needs:
integers, booleans (which satisfy `isinstance(qty, int)` in Python),
strings, and `None`. -/
inductive PyVal where
  | pyInt (n : Int)
  | pyBool (b : Bool)
  | pyStr (s : String)
  | pyNone
deriving DecidableEq

/-- Python's `isinstance(v, int)`: true for `int` and for `bool` (a
subclass of `int`). -/
def PyVal.isInstInt : PyVal → Bool
  | .pyInt _ => true
  | .pyBool _ => true
  | _ => false

/-- The integer value of a `PyVal` that passes `isinstance(v, int)`
(`True` counts as 1, `False` as 0; other cases are unreachable under the
guard and default to 0). -/
def PyVal.toInt : PyVal → Int
  | .pyInt n => n
  | .pyBool b => if b then 1 else 0
  | _ => 0

/-- How Python formats the value inside the f-string of `add_item`. -/
def PyVal.format : PyVal → String
  | .pyInt n => toString n
  | .pyBool b => if b then "True" else "False"
  | .pyStr s => s
  | .pyNone => "None"

/-- `d.get(key)` on an insertion-ordered dict: the first binding wins. -/
def dictGet {α : Type} : List (String × α) → String → Option α
  | [], _ => none
  | (k, v) :: rest, key => if k = key then some v else dictGet rest key

/-- `d.get(key, dv)`: lookup with a default. -/
def dictGetD {α : Type} (d : List (String × α)) (key : String) (dv : α) : α :=
  (dictGet d key).getD dv

/-- `d[key] = v`: replace the first binding in place, or append a new one
at the end (CPython dicts preserve insertion order). -/
def dictSet {α : Type} : List (String × α) → String → α → List (String × α)
  | [], key, v => [(key, v)]
  | (k, w) :: rest, key, v =>
      if k = key then (k, v) :: rest else (k, w) :: dictSet rest key v

/-- `del d[key]`: drop the first binding for `key`. -/
def dictDel {α : Type} : List (String × α) → String → List (String × α)
  | [], _ => []
  | (k, w) :: rest, key =>
      if k = key then rest else (k, w) :: dictDel rest key

/-- The global `stock_data` dictionary: item name to quantity. -/
abbrev Store := List (String × Int)

/-- The f-string `f"{datetime.now()}: Added {qty} of {item}"` appended to
`logs` by `add_item` (the timestamp is an input of the model). -/
def addMessage (now qv item : String) : String :=
  s!"{now}: Added {qv} of {item}"

/-- `add_item(item, qty, logs)`.  A falsy (empty) item name or a `qty`
that is not a non-negative `int` is rejected by the input validation and
the call is a no-op on the store and the log; otherwise the entry is
incremented (created at 0 if absent) and one timestamped message is
appended to `logs`.  `datetime.now()` is passed in as `now`. -/
def add_item (stock_data : Store) (item : String) (qty : PyVal)
    (logs : List String) (now : String) : Store × List String :=
  if item = "" then (stock_data, logs)
  else if (¬ qty.isInstInt = true) ∨ qty.toInt < 0 then (stock_data, logs)
  else
    (dictSet stock_data item (dictGetD stock_data item 0 + qty.toInt),
     logs ++ [addMessage now qty.format item])

/-- Which branch of `remove_item` ran, i.e. which log line was emitted:
a plain subtraction (no log), a deletion (info log), the
insufficient-stock warning, or the caught `KeyError` (error log). -/
inductive RemoveOutcome where
  | subtracted
  | deleted
  | insufficient
  | keyError
deriving DecidableEq

/-- `remove_item(item, qty)`.  If `stock_data.get(item, 0) >= qty`, the
code executes `stock_data[item] -= qty`, which raises `KeyError` (caught
by the handler) when `item` is absent; when the new value is `<= 0` the
entry is deleted.  Otherwise the insufficient-stock warning is logged and
nothing changes.  The returned `RemoveOutcome` records the branch. -/
def remove_item (stock_data : Store) (item : String) (qty : Int) :
    Store × RemoveOutcome :=
  if dictGetD stock_data item 0 ≥ qty then
    match dictGet stock_data item with
    | none => (stock_data, .keyError)
    | some q =>
        let s1 := dictSet stock_data item (q - qty)
        if q - qty ≤ 0 then (dictDel s1 item, .deleted)
        else (s1, .subtracted)
  else (stock_data, .insufficient)

/-- `get_qty(item)`: `stock_data.get(item, 0)`. -/
def get_qty (stock_data : Store) (item : String) : Int :=
  dictGetD stock_data item 0

/-- The contents a path can hold: no file, a file that is not valid
JSON, or a JSON document (here: a JSON object read back as a store). -/
inductive FileContent where
  | missing
  | invalidJSON
  | jsonDoc (doc : Store)
deriving DecidableEq

/-- The file system: a map from paths to contents. -/
abbrev FS := List (String × FileContent)

/-- Opening a path: absent paths read as `missing`. -/
def readFile (fs : FS) (path : String) : FileContent :=
  dictGetD fs path .missing

/-- `load_data(file)`.  On a successful parse the global store is
reassigned to the parsed document.  `FileNotFoundError` and
`json.JSONDecodeError` are caught and only logged: the handlers do not
touch `stock_data`, so the store keeps its previous value. -/
def load_data (stock_data : Store) (fs : FS) (path : String) : Store :=
  match readFile fs path with
  | .jsonDoc doc => doc
  | .missing => stock_data
  | .invalidJSON => stock_data

/-- `save_data(file)`: serialize the current store as a JSON document at
`path`, overwriting the previous contents. -/
def save_data (stock_data : Store) (fs : FS) (path : String) : FS :=
  dictSet fs path (.jsonDoc stock_data)

/-- `check_low_items(threshold)`: the names of the entries whose
quantity is strictly below the threshold, in store iteration order. -/
def check_low_items (stock_data : Store) (threshold : Int) : List String :=
  (stock_data.filter (fun p => decide (p.2 < threshold))).map Prod.fst

/-- `check_low_items()` with the default argument `threshold=5`. -/
def check_low_items_default (stock_data : Store) : List String :=
  check_low_items stock_data 5

/-- One call against the store (the log list and the timestamp of an add
are irrelevant to the store, as are the arguments of the read-only
operations). -/
inductive Op where
  | add (item : String) (qty : PyVal) (now : String)
  | remove (item : String) (qty : Int)
  | getQ (item : String)
  | checkLow (threshold : Int)

/-- The effect of one call on the store (`get_qty` and
`check_low_items` are pure reads). -/
def applyOp (s : Store) : Op → Store
  | .add item qty now => (add_item s item qty [] now).1
  | .remove item qty => (remove_item s item qty).1
  | .getQ _ => s
  | .checkLow _ => s

/-- A sequence of calls, run left to right. -/
def runOps (s : Store) : List Op → Store
  | [] => s
  | op :: rest => runOps (applyOp s op) rest

/-- Every stored quantity is strictly positive. -/
def PosStore (s : Store) : Prop := ∀ p ∈ s, 0 < p.2

/-- Every stored quantity is non-negative. -/
def NonnegStore (s : Store) : Prop := ∀ p ∈ s, 0 ≤ p.2

/-! ### Dictionary lemmas -/

theorem dictGet_dictSet_self {α : Type} (l : List (String × α)) (k : String)
    (v : α) : dictGet (dictSet l k v) k = some v := by
  induction l with
  | nil => simp [dictSet, dictGet]
  | cons p rest ih =>
      obtain ⟨k1, v1⟩ := p
      by_cases h : k1 = k
      · simp [dictSet, dictGet, h]
      · simp [dictSet, dictGet, h, ih]

theorem dictGet_dictSet_ne {α : Type} (l : List (String × α)) (k k2 : String)
    (v : α) (h : k2 ≠ k) : dictGet (dictSet l k v) k2 = dictGet l k2 := by
  induction l with
  | nil => simp [dictSet, dictGet, Ne.symm h]
  | cons p rest ih =>
      obtain ⟨k1, v1⟩ := p
      by_cases h1 : k1 = k
      · subst h1
        simp [dictSet, dictGet, Ne.symm h]
      · simp [dictSet, dictGet, h1, ih]

theorem dictGet_dictDel_ne {α : Type} (l : List (String × α)) (k k2 : String)
    (h : k2 ≠ k) : dictGet (dictDel l k) k2 = dictGet l k2 := by
  induction l with
  | nil => simp [dictDel]
  | cons p rest ih =>
      obtain ⟨k1, v1⟩ := p
      by_cases h1 : k1 = k
      · subst h1
        simp [dictDel, dictGet, Ne.symm h]
      · simp [dictDel, dictGet, h1, ih]

theorem dictGet_eq_none_of_not_mem {α : Type} (l : List (String × α))
    (k : String) (h : k ∉ l.map Prod.fst) : dictGet l k = none := by
  induction l with
  | nil => simp [dictGet]
  | cons p rest ih =>
      obtain ⟨k1, v1⟩ := p
      simp only [List.map_cons, List.mem_cons] at h
      push_neg at h
      simp [dictGet, Ne.symm h.1, ih h.2]

theorem mem_of_dictGet_some {α : Type} (l : List (String × α)) (k : String)
    (v : α) (h : dictGet l k = some v) : (k, v) ∈ l := by
  induction l with
  | nil => simp [dictGet] at h
  | cons p rest ih =>
      obtain ⟨k1, v1⟩ := p
      simp only [dictGet] at h
      by_cases h1 : k1 = k
      · subst h1
        rw [if_pos rfl] at h
        injection h with h2
        subst h2
        exact List.mem_cons_self _ _
      · rw [if_neg h1] at h
        exact List.mem_cons_of_mem _ (ih h)

theorem dictGet_eq_some_iff {α : Type} (l : List (String × α)) (k : String)
    (v : α) (hnd : (l.map Prod.fst).Nodup) :
    dictGet l k = some v ↔ (k, v) ∈ l := by
  constructor
  · exact mem_of_dictGet_some l k v
  · intro hm
    induction l with
    | nil => simp at hm
    | cons p rest ih =>
        obtain ⟨k1, v1⟩ := p
        simp only [List.map_cons, List.nodup_cons] at hnd
        rcases List.mem_cons.mp hm with h | h
        · rw [Prod.mk.injEq] at h
          obtain ⟨hk, hv⟩ := h
          subst hk
          subst hv
          simp [dictGet]
        · have hk : k1 ≠ k := by
            intro he
            refine hnd.1 ?_
            rw [he]
            exact List.mem_map.mpr ⟨(k, v), h, rfl⟩
          simp only [dictGet, if_neg hk]
          exact ih hnd.2 h

theorem dictGet_dictDel_self {α : Type} (l : List (String × α)) (k : String)
    (hnd : (l.map Prod.fst).Nodup) : dictGet (dictDel l k) k = none := by
  induction l with
  | nil => simp [dictDel, dictGet]
  | cons p rest ih =>
      obtain ⟨k1, v1⟩ := p
      simp only [List.map_cons, List.nodup_cons] at hnd
      by_cases h1 : k1 = k
      · subst h1
        simp only [dictDel, if_pos rfl]
        exact dictGet_eq_none_of_not_mem rest k1 hnd.1
      · simp [dictDel, dictGet, h1, ih hnd.2]

theorem map_fst_dictSet_of_get {α : Type} (l : List (String × α))
    (k : String) (v w : α) (h : dictGet l k = some w) :
    (dictSet l k v).map Prod.fst = l.map Prod.fst := by
  induction l with
  | nil => simp [dictGet] at h
  | cons p rest ih =>
      obtain ⟨k1, v1⟩ := p
      by_cases h1 : k1 = k
      · simp [dictSet, h1]
      · simp only [dictGet, if_neg h1] at h
        simp [dictSet, h1, ih h]

theorem mem_dictSet {α : Type} (l : List (String × α)) (k : String) (v : α)
    (p : String × α) (h : p ∈ dictSet l k v) : p ∈ l ∨ p.2 = v := by
  induction l with
  | nil =>
      simp only [dictSet, List.mem_singleton] at h
      exact Or.inr (by simp [h])
  | cons q rest ih =>
      obtain ⟨k1, v1⟩ := q
      by_cases h1 : k1 = k
      · simp only [dictSet, if_pos h1, List.mem_cons] at h
        rcases h with h | h
        · exact Or.inr (by simp [h])
        · exact Or.inl (List.mem_cons_of_mem _ h)
      · simp only [dictSet, if_neg h1, List.mem_cons] at h
        rcases h with h | h
        · exact Or.inl (List.mem_cons.mpr (Or.inl h))
        · rcases ih h with h2 | h2
          · exact Or.inl (List.mem_cons_of_mem _ h2)
          · exact Or.inr h2

theorem mem_dictDel {α : Type} (l : List (String × α)) (k : String)
    (p : String × α) (h : p ∈ dictDel l k) : p ∈ l := by
  induction l with
  | nil => simp [dictDel] at h
  | cons q rest ih =>
      obtain ⟨k1, v1⟩ := q
      by_cases h1 : k1 = k
      · simp only [dictDel, if_pos h1] at h
        exact List.mem_cons_of_mem _ h
      · simp only [dictDel, if_neg h1, List.mem_cons] at h
        rcases h with h | h
        · exact List.mem_cons.mpr (Or.inl h)
        · exact List.mem_cons_of_mem _ (ih h)

/-! ### Invariant lemmas -/

theorem nonneg_dictSet (s : Store) (k : String) (v : Int)
    (hs : NonnegStore s) (hv : 0 ≤ v) : NonnegStore (dictSet s k v) := by
  intro p hp
  rcases mem_dictSet s k v p hp with h | h
  · exact hs p h
  · rw [h]
    exact hv

theorem nonneg_dictDel (s : Store) (k : String) (hs : NonnegStore s) :
    NonnegStore (dictDel s k) :=
  fun p hp => hs p (mem_dictDel s k p hp)

theorem dictGetD_nonneg (s : Store) (k : String) (hs : NonnegStore s) :
    0 ≤ dictGetD s k 0 := by
  unfold dictGetD
  cases hg : dictGet s k with
  | none => simp
  | some v =>
      simpa using hs (k, v) (mem_of_dictGet_some s k v hg)

theorem nonneg_add_item (s : Store) (item : String) (qty : PyVal)
    (logs : List String) (now : String) (hs : NonnegStore s) :
    NonnegStore (add_item s item qty logs now).1 := by
  by_cases h1 : item = ""
  · simp only [add_item, if_pos h1]
    exact hs
  · by_cases h2 : (¬ qty.isInstInt = true) ∨ qty.toInt < 0
    · simp only [add_item, if_neg h1, if_pos h2]
      exact hs
    · have h2b := h2
      push_neg at h2b
      simp only [add_item, if_neg h1, if_neg h2]
      exact nonneg_dictSet s item _ hs
        (add_nonneg (dictGetD_nonneg s item hs) h2b.2)

theorem nonneg_remove_item (s : Store) (item : String) (qty : Int)
    (hs : NonnegStore s) : NonnegStore (remove_item s item qty).1 := by
  by_cases hc : dictGetD s item 0 ≥ qty
  · cases hg : dictGet s item with
    | none => simpa [remove_item, hc, hg] using hs
    | some q =>
        have hq : dictGetD s item 0 = q := by simp [dictGetD, hg]
        have hqq : 0 ≤ q - qty := by
          rw [hq] at hc
          omega
        by_cases hle : q - qty ≤ 0
        · simp only [remove_item, if_pos hc, hg, if_pos hle]
          exact nonneg_dictDel _ item (nonneg_dictSet s item _ hs hqq)
        · simp only [remove_item, if_pos hc, hg, if_neg hle]
          exact nonneg_dictSet s item _ hs hqq
  · simpa [remove_item, hc] using hs

theorem nonneg_applyOp (s : Store) (op : Op) (hs : NonnegStore s) :
    NonnegStore (applyOp s op) := by
  cases op with
  | add item qty now => exact nonneg_add_item s item qty [] now hs
  | remove item qty => exact nonneg_remove_item s item qty hs
  | getQ item => exact hs
  | checkLow t => exact hs

theorem nonneg_runOps (s : Store) (ops : List Op) (hs : NonnegStore s) :
    NonnegStore (runOps s ops) := by
  induction ops generalizing s with
  | nil => exact hs
  | cons op rest ih => exact ih _ (nonneg_applyOp s op hs)

/-! ### Claims -/

/-- C1: the spec says a failed `load` (missing file or invalid JSON)
leaves the store *empty*.  Evaluating the code at the failing input:
with the store holding `{"apple": 7}`, loading a path with no file, and
loading a file whose contents are not valid JSON, both leave the store
at `{"apple": 7}` — unchanged and in particular not empty.  The
exception handlers only log; they never reset `stock_data`. -/
theorem C1_load_failure_leaves_store_unchanged :
    load_data [("apple", 7)] [] "inventory.json" = [("apple", 7)]
    ∧ load_data [("apple", 7)] [("bad.json", FileContent.invalidJSON)]
        "bad.json" = [("apple", 7)]
    ∧ load_data [("apple", 7)] [] "inventory.json" ≠ [] := by
  refine ⟨rfl, rfl, ?_⟩
  decide

/-- C2 (counterexample): the claimed invariant "every entry has strictly
positive quantity" fails: starting from the empty store, the single call
`add_item("x", 0)` passes validation (`0` is a non-negative int) and
stores the entry `("x", 0)`, whose quantity is not `> 0`. -/
theorem C2_counterexample :
    ¬ PosStore (runOps [] [Op.add "x" (PyVal.pyInt 0) "t"]) := by
  unfold PosStore
  decide

/-- C2 (amended): after any sequence of `add_item`, `remove_item`,
`get_qty` and `check_low_items` calls starting from the empty store,
every entry present in the store has a *non-negative* quantity
(a zero-quantity entry is reachable, by an add of 0, so strict
positivity does not hold). -/
theorem C2_nonneg_after_any_ops (ops : List Op) :
    NonnegStore (runOps [] ops) :=
  nonneg_runOps [] ops (fun p hp => absurd hp (List.not_mem_nil p))

/-- C3 (counterexample): with the store `{"apple": 7}`, the call
`remove_item("apple", 10)` has `qty = 10 ≥ 7` (the current quantity),
yet afterwards the store is unchanged and `get_qty("apple")` is `7`, not
`0`: the code's guard `stock_data.get(item, 0) >= qty` sends any removal
of *more* than the current quantity to the insufficient-stock branch. -/
theorem C3_counterexample :
    dictGetD [("apple", 7)] "apple" 0 = 7
    ∧ ((7 : Int) ≤ 10)
    ∧ (remove_item [("apple", 7)] "apple" 10).1 = [("apple", 7)]
    ∧ get_qty (remove_item [("apple", 7)] "apple" 10).1 "apple" = 7 := by
  decide

/-- C3 (amended): for a store with distinct keys holding `item` at
quantity `q`: removing exactly `q` deletes the entry (the lookup then
fails and `get_qty` returns 0), while removing strictly more than `q`
leaves the store unchanged. -/
theorem C3_remove_at_least_current (s : Store) (item : String) (q qty : Int)
    (hnd : (s.map Prod.fst).Nodup) (hq : dictGet s item = some q) :
    (qty = q →
      dictGet (remove_item s item qty).1 item = none
      ∧ get_qty (remove_item s item qty).1 item = 0)
    ∧ (q < qty → (remove_item s item qty).1 = s) := by
  have hgd : dictGetD s item 0 = q := by simp [dictGetD, hq]
  constructor
  · intro he
    subst he
    have hdel : (remove_item s item qty).1
        = dictDel (dictSet s item (qty - qty)) item := by
      simp [remove_item, hgd, hq]
    have hnd2 : ((dictSet s item (qty - qty)).map Prod.fst).Nodup := by
      rw [map_fst_dictSet_of_get s item (qty - qty) qty hq]
      exact hnd
    have hnone : dictGet (remove_item s item qty).1 item = none := by
      rw [hdel]
      exact dictGet_dictDel_self _ item hnd2
    exact ⟨hnone, by simp [get_qty, dictGetD, hnone]⟩
  · intro hlt
    simp [remove_item, hgd, not_le.mpr hlt]

/-- C3 witness: removing exactly the current quantity of "apple"
deletes the entry. -/
theorem C3_remove_at_least_current_witness :
    dictGet (remove_item [("apple", 7)] "apple" 7).1 "apple" = none
    ∧ get_qty (remove_item [("apple", 7)] "apple" 7).1 "apple" = 0 :=
  (C3_remove_at_least_current [("apple", 7)] "apple" 7 7
    (by decide) (by decide)).1 rfl

/-- C4: saving a store and loading the same path back reproduces the
store exactly (the persisted document holds the store's keys and
quantities, and a successful parse reassigns the whole store). -/
theorem C4_save_load_round_trip (s : Store) (fs : FS) (path : String)
    (_hpos : PosStore s) :
    load_data s (save_data s fs path) path = s := by
  simp [load_data, save_data, readFile, dictGetD, dictGet_dictSet_self]

/-- C4 witness: round trip at the store `{"apple": 7}`. -/
theorem C4_save_load_round_trip_witness :
    PosStore [("apple", (7 : Int))]
    ∧ load_data [("apple", 7)]
        (save_data [("apple", 7)] [] "inventory.json") "inventory.json"
      = [("apple", 7)] := by
  have hpos : PosStore [("apple", (7 : Int))] := by
    unfold PosStore
    decide
  exact ⟨hpos, C4_save_load_round_trip [("apple", 7)] [] "inventory.json" hpos⟩

/-- C5: for a non-empty item name and a non-negative integer quantity,
`add_item` increments the stored quantity of `item` by `qty` (creating
the entry at 0 if absent, so `get_qty` afterwards is its previous value
plus `qty`) and appends exactly one timestamped message to the log. -/
theorem C5_add_valid (s : Store) (item : String) (n : Int)
    (logs : List String) (now : String) (h1 : item ≠ "") (h2 : 0 ≤ n) :
    get_qty (add_item s item (PyVal.pyInt n) logs now).1 item
      = get_qty s item + n
    ∧ (add_item s item (PyVal.pyInt n) logs now).2
      = logs ++ [addMessage now (toString n) item]
    ∧ ((add_item s item (PyVal.pyInt n) logs now).2).length
      = logs.length + 1 := by
  have hcond : ¬ ((¬ (PyVal.pyInt n).isInstInt = true)
      ∨ (PyVal.pyInt n).toInt < 0) := by
    push_neg
    exact ⟨rfl, h2⟩
  simp only [add_item, if_neg h1, if_neg hcond]
  refine ⟨?_, ?_, by simp⟩
  · simp [get_qty, dictGetD, dictGet_dictSet_self, PyVal.toInt]
  · simp [PyVal.format]

/-- C5 witness: adding 10 apples to the empty store with log "T". -/
theorem C5_add_valid_witness :
    get_qty (add_item [] "apple" (PyVal.pyInt 10) [] "T").1 "apple"
      = get_qty [] "apple" + 10
    ∧ (add_item [] "apple" (PyVal.pyInt 10) [] "T").2
      = [] ++ [addMessage "T" (toString (10 : Int)) "apple"] :=
  ⟨(C5_add_valid [] "apple" 10 [] "T" (by decide) (by decide)).1,
   (C5_add_valid [] "apple" 10 [] "T" (by decide) (by decide)).2.1⟩

/-- C6: `add_item` with an empty (falsy) item name, or with a quantity
that is negative or not an `int`, is rejected by the input validation
and leaves the store exactly unchanged. -/
theorem C6_add_invalid_noop (s : Store) (item : String) (qty : PyVal)
    (logs : List String) (now : String)
    (h : item = "" ∨ qty.isInstInt = false ∨ qty.toInt < 0) :
    (add_item s item qty logs now).1 = s := by
  by_cases h1 : item = ""
  · simp [add_item, h1]
  · have h2 : (¬ qty.isInstInt = true) ∨ qty.toInt < 0 := by
      rcases h with h | h | h
      · exact absurd h h1
      · exact Or.inl (by simp [h])
      · exact Or.inr h
    simp only [add_item, if_neg h1, if_pos h2]

/-- C6 witness: the call `add_item(x, "ten")` of the demonstration main
(`add_item(123, "ten")` passes a non-`int` quantity) is a no-op. -/
theorem C6_add_invalid_noop_witness :
    ("x" = "" ∨ (PyVal.pyStr "ten").isInstInt = false
      ∨ (PyVal.pyStr "ten").toInt < 0)
    ∧ (add_item [("apple", 7)] "x" (PyVal.pyStr "ten") [] "t").1
      = [("apple", 7)] :=
  ⟨by decide,
   C6_add_invalid_noop [("apple", 7)] "x" (PyVal.pyStr "ten") [] "t"
     (by decide)⟩

/-- C7: for a store with distinct keys, `check_low_items(threshold)`
returns exactly the names of entries whose quantity is strictly below
the threshold; the result is a sublist of the store's key sequence
(insertion-order iteration); and the default threshold is 5. -/
theorem C7_check_low (s : Store) (t : Int)
    (hnd : (s.map Prod.fst).Nodup) :
    (∀ item, item ∈ check_low_items s t
      ↔ ∃ q, dictGet s item = some q ∧ q < t)
    ∧ List.Sublist (check_low_items s t) (s.map Prod.fst)
    ∧ check_low_items_default s = check_low_items s 5 := by
  refine ⟨?_, ?_, rfl⟩
  · intro item
    constructor
    · intro hm
      simp only [check_low_items, List.mem_map] at hm
      obtain ⟨p, hp, hfst⟩ := hm
      rw [List.mem_filter] at hp
      refine ⟨p.2, ?_, by simpa using hp.2⟩
      rw [dictGet_eq_some_iff _ _ _ hnd, ← hfst]
      simpa using hp.1
    · rintro ⟨q, hq, hlt⟩
      have hmem := (dictGet_eq_some_iff s item q hnd).mp hq
      simp only [check_low_items, List.mem_map]
      exact ⟨(item, q), List.mem_filter.mpr ⟨hmem, by simpa using hlt⟩, rfl⟩
  · exact List.Sublist.map Prod.fst (List.filter_sublist s)

/-- C7 witness: on the store of the spec example, "banana" (quantity 2)
is reported low at threshold 5. -/
theorem C7_check_low_witness :
    "banana" ∈ check_low_items [("apple", 7), ("banana", 2)] 5
      ↔ ∃ q, dictGet ([("apple", 7), ("banana", 2)] : Store) "banana"
          = some q ∧ q < 5 :=
  (C7_check_low [("apple", 7), ("banana", 2)] 5 (by decide)).1 "banana"

/-- C8 (counterexample): `remove_item("orange", 0)` on a store without
"orange" passes the guard (`0 >= 0`), so `stock_data[item] -= qty`
raises `KeyError` and the call resolves through the caught-`KeyError`
error branch — a distinct error path, not the insufficient-stock
warning path the claim names. -/
theorem C8_counterexample :
    dictGet ([] : Store) "orange" = none
    ∧ (remove_item [] "orange" 0).2 = RemoveOutcome.keyError
    ∧ RemoveOutcome.keyError ≠ RemoveOutcome.insufficient := by
  decide

/-- C8 (amended): `remove_item` on an absent item always leaves the
store unchanged and propagates no exception; with `qty > 0` it resolves
through the insufficient-stock warning path, while with `qty ≤ 0` it
resolves through the caught-`KeyError` error path. -/
theorem C8_remove_absent (s : Store) (item : String) (qty : Int)
    (h : dictGet s item = none) :
    (remove_item s item qty).1 = s
    ∧ (0 < qty → (remove_item s item qty).2 = RemoveOutcome.insufficient)
    ∧ (qty ≤ 0 → (remove_item s item qty).2 = RemoveOutcome.keyError) := by
  have hgd : dictGetD s item 0 = 0 := by simp [dictGetD, h]
  refine ⟨?_, ?_, ?_⟩
  · by_cases hc : dictGetD s item 0 ≥ qty
    · simp [remove_item, hc, h]
    · simp [remove_item, hc]
  · intro hq
    have hc : ¬ dictGetD s item 0 ≥ qty := by omega
    simp [remove_item, hc]
  · intro hq
    have hc : dictGetD s item 0 ≥ qty := by omega
    simp [remove_item, hc, h]

/-- C8 witness: the demonstration main's `remove_item("orange", 1)` on
a store without "orange" leaves the store unchanged and takes the
insufficient-stock branch. -/
theorem C8_remove_absent_witness :
    (remove_item [("apple", 7)] "orange" 1).1 = [("apple", 7)]
    ∧ (remove_item [("apple", 7)] "orange" 1).2
      = RemoveOutcome.insufficient :=
  ⟨(C8_remove_absent [("apple", 7)] "orange" 1 (by decide)).1,
   (C8_remove_absent [("apple", 7)] "orange" 1 (by decide)).2.1 (by decide)⟩

/-- C9: `remove_item` never validates that `qty` is non-negative: for an
item present with quantity `q > 0` and any negative `qty`, the
sufficiency guard `stock_data.get(item, 0) >= qty` passes, the
subtraction branch runs, and the stored quantity strictly increases to
`q - qty > q`. -/
theorem C9_remove_negative_increases (s : Store) (item : String)
    (q qty : Int) (hq : dictGet s item = some q) (hpos : 0 < q)
    (hneg : qty < 0) :
    dictGetD s item 0 ≥ qty
    ∧ (remove_item s item qty).2 = RemoveOutcome.subtracted
    ∧ get_qty (remove_item s item qty).1 item = q - qty
    ∧ q < q - qty := by
  have hgd : dictGetD s item 0 = q := by simp [dictGetD, hq]
  have hc : dictGetD s item 0 ≥ qty := by omega
  have hsub : ¬ (q - qty ≤ 0) := by omega
  have hle : qty ≤ q := by omega
  refine ⟨hc, ?_, ?_, by omega⟩
  · simp [remove_item, hc, hq, hsub]
  · simp [remove_item, hc, hq, hsub, hle, get_qty, dictGetD,
      dictGet_dictSet_self]

/-- C9 witness: `remove_item("apple", -3)` on `{"apple": 7}` raises the
stored quantity to 10. -/
theorem C9_remove_negative_increases_witness :
    dictGetD [("apple", 7)] "apple" 0 ≥ -3
    ∧ get_qty (remove_item [("apple", 7)] "apple" (-3)).1 "apple"
      = 7 - (-3) :=
  ⟨(C9_remove_negative_increases [("apple", 7)] "apple" 7 (-3)
      (by decide) (by decide) (by decide)).1,
   (C9_remove_negative_increases [("apple", 7)] "apple" 7 (-3)
      (by decide) (by decide) (by decide)).2.2.1⟩

/-- C10: frame property: a call to `add_item` or `remove_item` for
`item` changes at most the binding of `item`: every other key has
exactly the same presence and quantity before and after the call. -/
theorem C10_frame (s : Store) (item other : String) (qty : PyVal)
    (rqty : Int) (logs : List String) (now : String) (h : other ≠ item) :
    dictGet (add_item s item qty logs now).1 other = dictGet s other
    ∧ dictGet (remove_item s item rqty).1 other = dictGet s other := by
  have hset : ∀ (l : Store) (v : Int),
      dictGet (dictSet l item v) other = dictGet l other :=
    fun l v => dictGet_dictSet_ne l item other v h
  have hdel : ∀ (l : Store),
      dictGet (dictDel l item) other = dictGet l other :=
    fun l => dictGet_dictDel_ne l item other h
  constructor
  · by_cases h1 : item = ""
    · simp [add_item, h1]
    · by_cases h2 : (¬ qty.isInstInt = true) ∨ qty.toInt < 0
      · simp only [add_item, if_neg h1, if_pos h2]
      · simp only [add_item, if_neg h1, if_neg h2]
        exact hset s _
  · by_cases hc : dictGetD s item 0 ≥ rqty
    · cases hg : dictGet s item with
      | none => simp [remove_item, hc, hg]
      | some q =>
          by_cases hle : q - rqty ≤ 0
          · simp [remove_item, hc, hg, hle, hset, hdel]
          · simp [remove_item, hc, hg, hle, hset]
    · simp [remove_item, hc]

/-- C10 witness: adding apples does not touch the banana binding. -/
theorem C10_frame_witness :
    dictGet (add_item [("apple", 7), ("banana", 2)] "apple"
        (PyVal.pyInt 3) [] "t").1 "banana"
      = dictGet [("apple", 7), ("banana", 2)] "banana" :=
  (C10_frame [("apple", 7), ("banana", 2)] "apple" "banana"
    (PyVal.pyInt 3) 2 [] "t" (by decide)).1

end Inventory
